import Mathlib

/-!  Formal model of a Brainfuck compiler and interpreter (the
DirectThreadingCompiler / DirectThreadingInterpreter / TwoEndedTape
classes of the C++ source).

Source bytes are modelled as natural numbers (ASCII codes: 62 for the
greater-than sign, 60 less-than, 43 plus, 45 minus, 46 dot, 44 comma,
91 opening square bracket, 93 closing square bracket).

Cursor convention: the C++ compiler walks an index `i` over the buffer
`ops`; every buffer access is at an index `i + k` with `k ≥ 0` and every
bound check compares `i + k` against `ops.size()`.  We therefore carry
the suffix `s = ops.drop i` as the cursor state: the access `ops[i+k]`
becomes `s.getD k 0`, the bound `i + k < ops.size()` becomes
`k < s.length`, and `i += n` becomes `s.drop n`.

Machine integers are modelled as `Nat`/`Int` with explicit reductions:
the `uint16_t repeated_char_count` truncation is `% 65536`, the
`unsigned char` cell arithmetic is `% 256`, and the `size_t` expression
`2 * TAPE_SIZE - n` is computed modulo `2 ^ 64`.
-/

namespace BF

/-- TAPE_SIZE from the C++ source: each of the two arrays holds 20000 cells. -/
def TAPE_SIZE : Nat := 20000

/-- Number of values of the C++ type `size_t` (64-bit). -/
def USIZE : Nat := 2 ^ 64

/-- The TwoEndedTape class: two byte arrays and a head position.
Cells are unsigned chars; we store them as naturals kept below 256 by
performing every write modulo 256.  `position` ranges over
`[0, 2*TAPE_SIZE)` in well-formed states; logical offset = position - TAPE_SIZE. -/
structure TwoEndedTape where
  right : Nat → Nat
  left : Nat → Nat
  position : Nat

/-- A fresh tape: all cells zero, head at `TAPE_SIZE` (logical offset 0). -/
def TwoEndedTape.initial : TwoEndedTape :=
  ⟨fun _ => 0, fun _ => 0, TAPE_SIZE⟩

/-- Value of the C++ `size_t` expression `2 * TAPE_SIZE - n`: for
`n > 2 * TAPE_SIZE` the unsigned subtraction wraps around `2 ^ 64`. -/
def rightMoveBound (n : Nat) : Nat := (2 * TAPE_SIZE + USIZE - n) % USIZE

/-- `moveRightBy(uint16_t n)`: `if (position < 2 * TAPE_SIZE - n) position += n;
else throw std::out_of_range("Tape overflow");`.  The caller's argument is an
`uint16_t`, so sites pass values already reduced `% 65536`. -/
def TwoEndedTape.moveRightBy (t : TwoEndedTape) (n : Nat) : Except String TwoEndedTape :=
  if t.position < rightMoveBound n then .ok { t with position := t.position + n }
  else .error "Tape overflow"

/-- `moveLeftBy(uint16_t n)`: `if (position >= n) position -= n;
else throw std::out_of_range("Tape underflow");`. -/
def TwoEndedTape.moveLeftBy (t : TwoEndedTape) (n : Nat) : Except String TwoEndedTape :=
  if n ≤ t.position then .ok { t with position := t.position - n }
  else .error "Tape underflow"

/-- Unsigned-char compound addition `cell += x` with `x` an `int`:
the result is the mathematical sum reduced modulo 256. -/
def ucharAdd (c : Nat) (x : Int) : Nat := (((c : Int) + x) % 256).toNat

/-- `add(int x)`: adds `x` to the cell under the head (modulo 256),
choosing the array exactly as the C++ source does. -/
def TwoEndedTape.add (t : TwoEndedTape) (x : Int) : TwoEndedTape :=
  if TAPE_SIZE ≤ t.position then
    let idx := t.position - TAPE_SIZE
    { t with right := Function.update t.right idx (ucharAdd (t.right idx) x) }
  else
    let idx := TAPE_SIZE - 1 - t.position
    { t with left := Function.update t.left idx (ucharAdd (t.left idx) x) }

/-- `set_curr(unsigned char val)`: overwrites the cell under the head;
the conversion of the argument to `unsigned char` is the `% 256`. -/
def TwoEndedTape.set_curr (t : TwoEndedTape) (v : Nat) : TwoEndedTape :=
  if TAPE_SIZE ≤ t.position then
    { t with right := Function.update t.right (t.position - TAPE_SIZE) (v % 256) }
  else
    { t with left := Function.update t.left (TAPE_SIZE - 1 - t.position) (v % 256) }

/-- `get_curr()`: reads the cell under the head. -/
def TwoEndedTape.get_curr (t : TwoEndedTape) : Nat :=
  if TAPE_SIZE ≤ t.position then t.right (t.position - TAPE_SIZE)
  else t.left (TAPE_SIZE - 1 - t.position)

/-- Derived reader: the cell at an arbitrary head position `p`
(same array selection as `get_curr`). -/
def TwoEndedTape.cell (t : TwoEndedTape) (p : Nat) : Nat :=
  if TAPE_SIZE ≤ p then t.right (p - TAPE_SIZE)
  else t.left (TAPE_SIZE - 1 - p)

/-- The OpCode enum, in the declaration order of the C++ source
(which fixes the numeric tags 0..11). -/
inductive OpCode where
  | OUTPUT | INPUT | JUMP_FWD | JUMP_BACK | SET_ZERO | ADD_VAL
  | MV_POS | ADD_TO_NEXT | MULTIPLY_MV | SET_VAL | SCAN_RIGHT | SCAN_LEFT
deriving DecidableEq

/-- Numeric tag of an opcode: the value the C++ enum assigns
(declaration order, starting at 0). -/
def opTag : OpCode → Nat
  | .OUTPUT => 0
  | .INPUT => 1
  | .JUMP_FWD => 2
  | .JUMP_BACK => 3
  | .SET_ZERO => 4
  | .ADD_VAL => 5
  | .MV_POS => 6
  | .ADD_TO_NEXT => 7
  | .MULTIPLY_MV => 8
  | .SET_VAL => 9
  | .SCAN_RIGHT => 10
  | .SCAN_LEFT => 11

/-- struct Instruction { OpCode op; size_t jump_ref; int32_t value; }. -/
structure Instruction where
  op : OpCode
  jump_ref : Nat
  value : Int
deriving DecidableEq

/-- Default instruction used to express `bytecode[j]` totally
(the compiler only ever indexes in bounds). -/
def dInstr : Instruction := ⟨.OUTPUT, 0, 0⟩

/-- struct PatternCheckResults { bool found; int32_t val; size_t len_of_pattern; }. -/
structure PatternCheckResults where
  found : Bool
  val : Int
  len_of_pattern : Nat
deriving DecidableEq

/-- Length of the leading run of `target` bytes of a buffer. -/
def countLeading (target : Nat) : List Nat → Nat
  | [] => 0
  | c :: rest => if c = target then countLeading target rest + 1 else 0

/-- `count_repeated_chars(ops, start, target)` on the suffix `s = ops.drop start`:
`count` starts at 1 and the loop counts the `target` bytes from `start + 1` on. -/
def count_repeated_chars (s : List Nat) (target : Nat) : Nat :=
  1 + countLeading target (s.drop 1)

/-- Signed sum of the leading run of plus (43) / minus (45) bytes:
the `multiplier += (ops[i] == '+') ? 1 : -1` accumulation. -/
def pmSum : List Nat → Int
  | [] => 0
  | c :: rest => if c = 43 then pmSum rest + 1 else if c = 45 then pmSum rest - 1 else 0

/-- Length of the leading run of plus/minus bytes (how far the `while` advances `i`). -/
def pmCount : List Nat → Nat
  | [] => 0
  | c :: rest => if c = 43 ∨ c = 45 then pmCount rest + 1 else 0

/-- `is_set_zero_pattern(ops, start)` on the suffix `s = ops.drop start`:
the guard `start + 2 >= ops.size()` is `s.length ≤ 2`; then bytes 0,1,2
must read `[`, `-` or `+`, `]`. -/
def is_set_zero_pattern (s : List Nat) : Bool :=
  if s.length ≤ 2 then false
  else decide (s.getD 0 0 = 91 ∧ (s.getD 1 0 = 45 ∨ s.getD 1 0 = 43) ∧ s.getD 2 0 = 93)

/-- `is_scan_pattern(ops, pos)` on the suffix `s = ops.drop pos`. -/
def is_scan_pattern (s : List Nat) : PatternCheckResults :=
  if s.length ≤ 2 then ⟨false, 0, 0⟩
  else if s.getD 0 0 ≠ 91 then ⟨false, 0, 0⟩
  else
    let direction := s.getD 1 0
    if direction ≠ 62 ∧ direction ≠ 60 then ⟨false, 0, 0⟩
    else if s.getD 2 0 ≠ 93 then ⟨false, 0, 0⟩
    else ⟨true, if direction = 62 then 1 else 0, 3⟩

/-- `is_add_to_next_pattern(ops, pos)` on the suffix `s = ops.drop pos`.
The guard `pos + 4 >= ops.size()` is `s.length ≤ 4`; the `&&` chain then
reads bytes 0..5 left to right, short-circuiting.  The read of byte 5 is
not covered by the guard: when the first five bytes match `[->+<` and the
buffer ends there, the C++ code reads one element past the end of the
vector; we return `none` for that out-of-bounds read. -/
def is_add_to_next_pattern (s : List Nat) : Option Bool :=
  if s.length ≤ 4 then some false
  else if s.getD 0 0 = 91 ∧ s.getD 1 0 = 45 ∧ s.getD 2 0 = 62 ∧
          s.getD 3 0 = 43 ∧ s.getD 4 0 = 60 then
    (s[5]?).map fun c => decide (c = 93)
  else some false

/-- `is_multiply_move_pattern(ops, pos)` on the suffix `s = ops.drop pos`.
After the `[->` prefix (with at least one `+`/`-` following), the `while`
accumulates the signed multiplier over the `+`/`-` run ending at relative
index `i = 3 + pmCount`; the pattern needs `<]` there.
`len_of_pattern` is `i + 2 - pos`, i.e. `i + 2` relative to the cursor. -/
def is_multiply_move_pattern (s : List Nat) : PatternCheckResults :=
  if s.length ≤ 4 ∨ s.getD 0 0 ≠ 91 ∨ s.getD 1 0 ≠ 45 ∨ s.getD 2 0 ≠ 62 ∨
     (s.getD 3 0 ≠ 43 ∧ s.getD 3 0 ≠ 45) then ⟨false, 0, 0⟩
  else
    let run := s.drop 3
    let i := 3 + pmCount run
    if s.length ≤ i ∨ s.getD i 0 ≠ 60 ∨ s.length ≤ i + 1 ∨ s.getD (i + 1) 0 ≠ 93 then
      ⟨false, 0, 0⟩
    else ⟨true, pmSum run, i + 2⟩

/-- `is_set_value_pattern(ops, pos)` on the suffix `s = ops.drop pos`:
`[-]` followed by a `+`/`-` run with nonzero signed sum. -/
def is_set_value_pattern (s : List Nat) : PatternCheckResults :=
  if s.length ≤ 2 then ⟨false, 0, 0⟩
  else if s.getD 0 0 = 91 ∧ s.getD 1 0 = 45 ∧ s.getD 2 0 = 93 then
    let run := s.drop 3
    let value := pmSum run
    if value ≠ 0 then ⟨true, value, 3 + pmCount run⟩ else ⟨false, 0, 0⟩
  else ⟨false, 0, 0⟩

/-- One dispatch step of `DirectThreadingCompiler::compile` at a cursor whose
suffix is `s` (assumed nonempty): returns the new bytecode, the new loop
stack, and the number of consumed characters (the `n` of `NEXT_CHAR_N(n)`),
or `none` when the step performs the out-of-bounds pattern read.
The `uint16_t repeated_char_count` truncation is the `% 65536`. -/
def compileStep (s : List Nat) (bc : List Instruction) (st : List Nat) :
    Option (List Instruction × List Nat × Nat) :=
  let c := s.getD 0 0
  if c = 62 then
    let rcc := count_repeated_chars s 62 % 65536
    some (bc ++ [⟨.MV_POS, 0, (rcc : Int)⟩], st, rcc)
  else if c = 60 then
    let rcc := count_repeated_chars s 60 % 65536
    some (bc ++ [⟨.MV_POS, 0, -(rcc : Int)⟩], st, rcc)
  else if c = 43 then
    let rcc := count_repeated_chars s 43 % 65536
    some (bc ++ [⟨.ADD_VAL, 0, (rcc : Int)⟩], st, rcc)
  else if c = 45 then
    let rcc := count_repeated_chars s 45 % 65536
    some (bc ++ [⟨.ADD_VAL, 0, -(rcc : Int)⟩], st, rcc)
  else if c = 46 then some (bc ++ [⟨.OUTPUT, 0, 0⟩], st, 1)
  else if c = 44 then some (bc ++ [⟨.INPUT, 0, 0⟩], st, 1)
  else if c = 91 then
    let pv := is_set_value_pattern s
    if pv.found then some (bc ++ [⟨.SET_VAL, 0, pv.val⟩], st, pv.len_of_pattern)
    else if is_set_zero_pattern s then some (bc ++ [⟨.SET_ZERO, 0, 0⟩], st, 3)
    else
      let ps := is_scan_pattern s
      let bc2 :=
        if ps.found then
          bc ++ [⟨if ps.val ≠ 0 then .SCAN_RIGHT else .SCAN_LEFT, 0, 0⟩]
        else bc
      match is_add_to_next_pattern s with
      | none => none
      | some true => some (bc2 ++ [⟨.ADD_TO_NEXT, 0, 0⟩], st, 6)
      | some false =>
        let pm := is_multiply_move_pattern s
        if pm.found then some (bc2 ++ [⟨.MULTIPLY_MV, 0, pm.val⟩], st, pm.len_of_pattern)
        else some (bc2 ++ [⟨.JUMP_FWD, 0, 0⟩], bc2.length :: st, 1)
  else if c = 93 then
    match st with
    | [] => some (bc, [], 1)
    | top :: rest =>
      let old := bc.getD top dInstr
      some ((bc.set top ⟨old.op, bc.length, old.value⟩) ++ [⟨.JUMP_BACK, top, 0⟩], rest, 1)
  else some (bc, st, 1)

/-- The compiler's main loop: dispatch steps until the input is consumed.
`fuel` bounds the number of dispatch steps; `none` means the loop either
performed an out-of-bounds read or did not finish within `fuel` steps.
A terminating run takes at most one step per input byte, so the wrapper's
fuel `ops.length + 1` is exhausted only by a genuinely diverging run. -/
def compileGo : Nat → List Nat → List Instruction → List Nat → Option (List Instruction)
  | _, [], bc, _ => some bc
  | 0, _ :: _, _, _ => none
  | fuel + 1, c :: rest, bc, st =>
    match compileStep (c :: rest) bc st with
    | none => none
    | some (bc', st', n) => compileGo fuel ((c :: rest).drop n) bc' st'

/-- `DirectThreadingCompiler::compile`. -/
def compile (ops : List Nat) : Option (List Instruction) :=
  compileGo (ops.length + 1) ops [] []

/-- `rightMoveBound 1 = 2 * TAPE_SIZE - 1` (no wrap for n = 1). -/
theorem rightMoveBound_one : rightMoveBound 1 = 39999 := by decide

/-- For arguments up to `2 * TAPE_SIZE` no size_t wrap occurs. -/
theorem rightMoveBound_eq (n : Nat) (h : n ≤ 40000) : rightMoveBound n = 40000 - n := by
  unfold rightMoveBound USIZE TAPE_SIZE
  have h1 : 2 * 20000 + 2 ^ 64 - n = (40000 - n) + 2 ^ 64 := by omega
  rw [h1, Nat.add_mod_right, Nat.mod_eq_of_lt (by omega)]

/-- do_set_zero: `tape.set_curr(0)`. -/
def execSetZero (t : TwoEndedTape) : TwoEndedTape := t.set_curr 0

/-- do_set_val: `tape.set_curr(bytecode[pc].value)`; the int32 → unsigned char
conversion is the reduction modulo 256 (`Int.emod` is nonnegative here). -/
def execSetVal (v : Int) (t : TwoEndedTape) : TwoEndedTape := t.set_curr (v % 256).toNat

/-- do_add_to_next: read the current cell into `tmp` (uint16_t, value-preserving
for an unsigned char), zero it, move right one, add `tmp`, move left one.
A throwing move propagates as the error. -/
def execAddToNext (t : TwoEndedTape) : Except String TwoEndedTape :=
  let tmp := t.get_curr
  let t1 := t.set_curr 0
  match t1.moveRightBy 1 with
  | .error e => .error e
  | .ok t2 => (t2.add (tmp : Int)).moveLeftBy 1

/-- do_multiply_mv: like do_add_to_next but adding `tmp * value`.  The C++
computes `tmp * value` in uint32 arithmetic and passes it through int to the
mod-256 cell addition; every conversion in that chain preserves the value
modulo 256 (256 divides 2^32), so the cell effect equals adding the
mathematical product. -/
def execMultiplyMove (k : Int) (t : TwoEndedTape) : Except String TwoEndedTape :=
  let tmp := t.get_curr
  let t1 := t.set_curr 0
  match t1.moveRightBy 1 with
  | .error e => .error e
  | .ok t2 => (t2.add ((tmp : Int) * k)).moveLeftBy 1

/-- do_scan_right: `while (get_curr() != 0) moveRightBy(1)`.  Terminates
because each successful move strictly increases the position, which the
move's bound keeps below `2 * TAPE_SIZE`. -/
def scanRightT (t : TwoEndedTape) : Except String TwoEndedTape :=
  if t.get_curr = 0 then .ok t
  else
    match h : t.moveRightBy 1 with
    | .error e => .error e
    | .ok t' => scanRightT t'
termination_by 2 * TAPE_SIZE - t.position
decreasing_by
  have hb : t.position < rightMoveBound 1 := by
    by_contra hc
    simp [TwoEndedTape.moveRightBy, hc] at h
  have hp : t'.position = t.position + 1 := by
    simp only [TwoEndedTape.moveRightBy, if_pos hb, Except.ok.injEq] at h
    rw [← h]
  have h1 : rightMoveBound 1 = 39999 := rightMoveBound_one
  simp only [TAPE_SIZE, hp]
  omega

/-- do_scan_left: `while (get_curr() != 0) moveLeftBy(1)`. -/
def scanLeftT (t : TwoEndedTape) : Except String TwoEndedTape :=
  if t.get_curr = 0 then .ok t
  else
    match h : t.moveLeftBy 1 with
    | .error e => .error e
    | .ok t' => scanLeftT t'
termination_by t.position
decreasing_by
  have hb : 1 ≤ t.position := by
    by_contra hc
    simp [TwoEndedTape.moveLeftBy, hc] at h
  have hp : t'.position = t.position - 1 := by
    simp only [TwoEndedTape.moveLeftBy, if_pos hb, Except.ok.injEq] at h
    rw [← h]
  simp only [hp]
  omega

/-- Result of running the interpreter loop. -/
inductive IResult where
  | done : TwoEndedTape → List Nat → IResult
  | fault : String → IResult
  | oobFetch : IResult
  | fuelOut : IResult

/-- Effect of one fetched instruction on (pc, tape, input, output): the body
of the corresponding `do_...` label, before the `NEXT` increment.  The two
jump opcodes may assign the program counter to their `jump_ref`; the
`MV_POS` argument passes through the int32 → uint16_t conversion (`% 65536`);
input at end of stream models `std::cin.get()` returning -1, stored as 255. -/
def execInstr (ins : Instruction) (pc : Nat) (t : TwoEndedTape) (inp out : List Nat) :
    Except String (Nat × TwoEndedTape × List Nat × List Nat) :=
  match ins.op with
  | .OUTPUT => .ok (pc, t, inp, out ++ [t.get_curr])
  | .INPUT =>
    let v := match inp with | [] => 255 | x :: _ => x % 256
    .ok (pc, t.set_curr v, inp.tail, out)
  | .JUMP_FWD => .ok (if t.get_curr = 0 then ins.jump_ref else pc, t, inp, out)
  | .JUMP_BACK => .ok (if t.get_curr ≠ 0 then ins.jump_ref else pc, t, inp, out)
  | .SET_ZERO => .ok (pc, execSetZero t, inp, out)
  | .ADD_VAL => .ok (pc, t.add ins.value, inp, out)
  | .MV_POS =>
    if 0 ≤ ins.value then
      match t.moveRightBy (ins.value.toNat % 65536) with
      | .error e => .error e
      | .ok t' => .ok (pc, t', inp, out)
    else
      match t.moveLeftBy ((-ins.value).toNat % 65536) with
      | .error e => .error e
      | .ok t' => .ok (pc, t', inp, out)
  | .ADD_TO_NEXT =>
    match execAddToNext t with
    | .error e => .error e
    | .ok t' => .ok (pc, t', inp, out)
  | .MULTIPLY_MV =>
    match execMultiplyMove ins.value t with
    | .error e => .error e
    | .ok t' => .ok (pc, t', inp, out)
  | .SET_VAL => .ok (pc, execSetVal ins.value t, inp, out)
  | .SCAN_RIGHT =>
    match scanRightT t with
    | .error e => .error e
    | .ok t' => .ok (pc, t', inp, out)
  | .SCAN_LEFT =>
    match scanLeftT t with
    | .error e => .error e
    | .ok t' => .ok (pc, t', inp, out)

/-- The dispatch loop of `DirectThreadingInterpreter::interprete`: fetch
`bytecode[pc]` (an out-of-range fetch is `oobFetch`), run the handler, then
`NEXT`: increment the (possibly reassigned) pc, continue while it is below
the sequence length, otherwise return.  `fuel` bounds the number of
dispatches; a tape fault aborts the run. -/
def interpGo (bc : List Instruction) : Nat → Nat → TwoEndedTape → List Nat → List Nat → IResult
  | 0, _, _, _, _ => .fuelOut
  | fuel + 1, pc, t, inp, out =>
    match bc[pc]? with
    | none => .oobFetch
    | some ins =>
      match execInstr ins pc t inp out with
      | .error e => .fault e
      | .ok (pc1, t', inp', out') =>
        if pc1 + 1 < bc.length then interpGo bc fuel (pc1 + 1) t' inp' out'
        else .done t' out'

/-- `DirectThreadingInterpreter::interprete`: early return on an empty
sequence, otherwise dispatch from pc = 0 on a fresh tape. -/
def interprete (fuel : Nat) (bc : List Instruction) (inp : List Nat) : IResult :=
  if bc.length = 0 then .done TwoEndedTape.initial []
  else interpGo bc fuel 0 TwoEndedTape.initial inp []

/-- `print_bytecode`: one byte per instruction, the opcode's numeric tag. -/
def print_bytecode (bc : List Instruction) : List Nat :=
  bc.map fun ins => opTag ins.op

/-- The `-c` path of `main`: compile, then `print_bytecode(bytecode)`;
the interpreter is not invoked on this path. -/
def run_with_c_flag (ops : List Nat) : Option (List Nat) :=
  (compile ops).map print_bytecode

/-! ### Bracket-linking invariant of the compiler -/

theorem getD_append_lt {α : Type} (l l2 : List α) (m : Nat) (d : α) (h : m < l.length) :
    (l ++ l2).getD m d = l.getD m d := by
  induction l generalizing m with
  | nil => simp at h
  | cons a l ih =>
    cases m with
    | zero => simp
    | succ m =>
      simp only [List.cons_append, List.getD_cons_succ]
      exact ih m (by simpa using h)

theorem getD_append_len {α : Type} (l l2 : List α) (x : α) (d : α) (h : l2 = [x]) :
    (l ++ l2).getD l.length d = x := by
  subst h
  induction l with
  | nil => simp
  | cons a l ih => simpa using ih

theorem getD_set_self {α : Type} (l : List α) (n : Nat) (a d : α) (h : n < l.length) :
    (l.set n a).getD n d = a := by
  induction l generalizing n with
  | nil => simp at h
  | cons b l ih =>
    cases n with
    | zero => simp
    | succ n =>
      simp only [List.set_cons_succ, List.getD_cons_succ]
      exact ih n (by simpa using h)

theorem getD_set_ne {α : Type} (l : List α) (n m : Nat) (a d : α) (h : m ≠ n) :
    (l.set n a).getD m d = l.getD m d := by
  induction l generalizing n m with
  | nil => simp
  | cons b l ih =>
    cases n with
    | zero =>
      cases m with
      | zero => exact absurd rfl h
      | succ m => simp
    | succ n =>
      cases m with
      | zero => simp
      | succ m =>
        simp only [List.set_cons_succ, List.getD_cons_succ]
        exact ih n m (by omega)

/-- Every JUMP_BACK instruction of a sequence points strictly backwards at a
JUMP_FWD instruction whose own jump target points back at it: the mutual
linking of matched bracket pairs. -/
def Linked (bc : List Instruction) : Prop :=
  ∀ m, m < bc.length → (bc.getD m dInstr).op = OpCode.JUMP_BACK →
    (bc.getD m dInstr).jump_ref < m ∧
    (bc.getD ((bc.getD m dInstr).jump_ref) dInstr).op = OpCode.JUMP_FWD ∧
    (bc.getD ((bc.getD m dInstr).jump_ref) dInstr).jump_ref = m

/-- Invariant of the compiler's loop stack: indices are strictly decreasing
from the top and each one names an in-range JUMP_FWD instruction whose jump
target still holds the placeholder 0. -/
def StackOK (bc : List Instruction) (st : List Nat) : Prop :=
  st.Pairwise (fun a b => b < a) ∧
  ∀ j ∈ st, j < bc.length ∧ (bc.getD j dInstr).op = OpCode.JUMP_FWD ∧
    (bc.getD j dInstr).jump_ref = 0

theorem linked_append_one (bc : List Instruction) (x : Instruction) (h : Linked bc)
    (hx : x.op ≠ OpCode.JUMP_BACK) : Linked (bc ++ [x]) := by
  intro m hm hop
  have hm' : m < bc.length + 1 := by simpa using hm
  rcases Nat.lt_or_ge m bc.length with hlt | hge
  · have e1 : (bc ++ [x]).getD m dInstr = bc.getD m dInstr := getD_append_lt _ _ _ _ hlt
    rw [e1] at hop ⊢
    obtain ⟨h1, h2, h3⟩ := h m hlt hop
    have e2 : (bc ++ [x]).getD ((bc.getD m dInstr).jump_ref) dInstr =
        bc.getD ((bc.getD m dInstr).jump_ref) dInstr := getD_append_lt _ _ _ _ (by omega)
    rw [e2]
    exact ⟨h1, h2, h3⟩
  · have hme : m = bc.length := by omega
    subst hme
    rw [getD_append_len _ _ x _ rfl] at hop
    exact absurd hop hx

theorem stackOK_append_one (bc : List Instruction) (st : List Nat) (x : Instruction)
    (h : StackOK bc st) : StackOK (bc ++ [x]) st := by
  obtain ⟨hpw, hmem⟩ := h
  refine ⟨hpw, fun j hj => ?_⟩
  obtain ⟨h1, h2, h3⟩ := hmem j hj
  have e : (bc ++ [x]).getD j dInstr = bc.getD j dInstr := getD_append_lt _ _ _ _ h1
  rw [e]
  exact ⟨by simp; omega, h2, h3⟩

theorem stackOK_push_jf (bc : List Instruction) (st : List Nat)
    (h : StackOK bc st) :
    StackOK (bc ++ [⟨OpCode.JUMP_FWD, 0, 0⟩]) (bc.length :: st) := by
  obtain ⟨hpw, hmem⟩ := h
  constructor
  · refine List.pairwise_cons.mpr ⟨fun j hj => (hmem j hj).1, hpw⟩
  · intro j hj
    rcases List.mem_cons.mp hj with hj0 | hj1
    · subst hj0
      rw [getD_append_len _ _ _ _ rfl]
      exact ⟨by simp, rfl, rfl⟩
    · obtain ⟨h1, h2, h3⟩ := hmem j hj1
      have e : (bc ++ [(⟨OpCode.JUMP_FWD, 0, 0⟩ : Instruction)]).getD j dInstr = bc.getD j dInstr :=
        getD_append_lt _ _ _ _ h1
      rw [e]
      exact ⟨by simp; omega, h2, h3⟩

/-- Closing a bracket: updating the matching JUMP_FWD's target to the new
index and appending the JUMP_BACK preserves both invariants. -/
theorem close_inv (bc : List Instruction) (top : Nat) (rest : List Nat)
    (hL : Linked bc) (hS : StackOK bc (top :: rest)) :
    Linked ((bc.set top ⟨(bc.getD top dInstr).op, bc.length, (bc.getD top dInstr).value⟩) ++
        [⟨OpCode.JUMP_BACK, top, 0⟩]) ∧
    StackOK ((bc.set top ⟨(bc.getD top dInstr).op, bc.length, (bc.getD top dInstr).value⟩) ++
        [⟨OpCode.JUMP_BACK, top, 0⟩]) rest := by
  obtain ⟨hpw, hmem⟩ := hS
  obtain ⟨htop, htopop, htopref⟩ := hmem top (List.mem_cons_self _ _)
  set upd : Instruction := ⟨(bc.getD top dInstr).op, bc.length, (bc.getD top dInstr).value⟩ with hupd
  set bc2 : List Instruction := (bc.set top upd) ++ [⟨OpCode.JUMP_BACK, top, 0⟩] with hbc2
  have hlen1 : (bc.set top upd).length = bc.length := List.length_set _ _ _
  have hlen2 : bc2.length = bc.length + 1 := by simp [hbc2, hlen1]
  have g1 : ∀ m, m < bc.length → m ≠ top → bc2.getD m dInstr = bc.getD m dInstr := by
    intro m h1 h2
    rw [hbc2, getD_append_lt _ _ _ _ (by omega), getD_set_ne _ _ _ _ _ h2]
  have g2 : bc2.getD top dInstr = upd := by
    rw [hbc2, getD_append_lt _ _ _ _ (by omega), getD_set_self _ _ _ _ (by omega)]
  have g3 : bc2.getD bc.length dInstr = ⟨OpCode.JUMP_BACK, top, 0⟩ := by
    rw [hbc2, ← hlen1, getD_append_len _ _ _ _ rfl]
  constructor
  · intro m hm hop
    by_cases hmL : m = bc.length
    · subst hmL
      rw [g3]
      refine ⟨htop, ?_, ?_⟩
      · show (bc2.getD top dInstr).op = OpCode.JUMP_FWD
        rw [g2, hupd]
        exact htopop
      · show (bc2.getD top dInstr).jump_ref = bc.length
        rw [g2, hupd]
    · have hmlt : m < bc.length := by
        rw [hlen2] at hm
        omega
      by_cases hmtop : m = top
      · rw [hmtop, g2, hupd] at hop
        have hcontra : (bc.getD top dInstr).op = OpCode.JUMP_BACK := hop
        rw [htopop] at hcontra
        exact absurd hcontra (by decide)
      · rw [g1 m hmlt hmtop] at hop ⊢
        obtain ⟨h1, h2, h3⟩ := hL m hmlt hop
        have hjne : (bc.getD m dInstr).jump_ref ≠ top := by
          intro hcon
          rw [hcon, htopref] at h3
          omega
        rw [g1 _ (by omega) hjne]
        exact ⟨h1, h2, h3⟩
  · refine ⟨(List.pairwise_cons.mp hpw).2, fun j hj => ?_⟩
    have hjtop : j < top := (List.pairwise_cons.mp hpw).1 j hj
    obtain ⟨h1, h2, h3⟩ := hmem j (List.mem_cons_of_mem _ hj)
    rw [g1 j h1 (by omega)]
    exact ⟨by omega, h2, h3⟩

theorem someTriple {α β γ : Type} {a : α} {b : β} {c : γ} {a' : α} {b' : β} {c' : γ}
    (h : (some (a, b, c) : Option (α × β × γ)) = some (a', b', c')) :
    a = a' ∧ b = b' ∧ c = c' := by
  injection h with h'
  refine ⟨congrArg (fun p => p.1) h', congrArg (fun p => p.2.1) h', congrArg (fun p => p.2.2) h'⟩

theorem scan_instr_ne_jb (v : Int) :
    ((⟨if v ≠ 0 then OpCode.SCAN_RIGHT else OpCode.SCAN_LEFT, 0, 0⟩ : Instruction).op ≠
      OpCode.JUMP_BACK) := by
  split <;> simp

/-- One compiler dispatch step preserves the bracket-linking and loop-stack
invariants. -/
theorem compileStep_inv (s : List Nat) (bc bc' : List Instruction) (st st' : List Nat) (n : Nat)
    (h : compileStep s bc st = some (bc', st', n)) (hL : Linked bc) (hS : StackOK bc st) :
    Linked bc' ∧ StackOK bc' st' := by
  simp only [compileStep] at h
  by_cases h62 : s.getD 0 0 = 62
  · rw [if_pos h62] at h
    obtain ⟨rfl, rfl, rfl⟩ := someTriple h
    exact ⟨linked_append_one bc _ hL (by simp), stackOK_append_one bc _ _ hS⟩
  rw [if_neg h62] at h
  by_cases h60 : s.getD 0 0 = 60
  · rw [if_pos h60] at h
    obtain ⟨rfl, rfl, rfl⟩ := someTriple h
    exact ⟨linked_append_one bc _ hL (by simp), stackOK_append_one bc _ _ hS⟩
  rw [if_neg h60] at h
  by_cases h43 : s.getD 0 0 = 43
  · rw [if_pos h43] at h
    obtain ⟨rfl, rfl, rfl⟩ := someTriple h
    exact ⟨linked_append_one bc _ hL (by simp), stackOK_append_one bc _ _ hS⟩
  rw [if_neg h43] at h
  by_cases h45 : s.getD 0 0 = 45
  · rw [if_pos h45] at h
    obtain ⟨rfl, rfl, rfl⟩ := someTriple h
    exact ⟨linked_append_one bc _ hL (by simp), stackOK_append_one bc _ _ hS⟩
  rw [if_neg h45] at h
  by_cases h46 : s.getD 0 0 = 46
  · rw [if_pos h46] at h
    obtain ⟨rfl, rfl, rfl⟩ := someTriple h
    exact ⟨linked_append_one bc _ hL (by simp), stackOK_append_one bc _ _ hS⟩
  rw [if_neg h46] at h
  by_cases h44 : s.getD 0 0 = 44
  · rw [if_pos h44] at h
    obtain ⟨rfl, rfl, rfl⟩ := someTriple h
    exact ⟨linked_append_one bc _ hL (by simp), stackOK_append_one bc _ _ hS⟩
  rw [if_neg h44] at h
  by_cases h91 : s.getD 0 0 = 91
  · rw [if_pos h91] at h
    by_cases hpv : (is_set_value_pattern s).found = true
    · rw [if_pos hpv] at h
      obtain ⟨rfl, rfl, rfl⟩ := someTriple h
      exact ⟨linked_append_one bc _ hL (by simp), stackOK_append_one bc _ _ hS⟩
    rw [if_neg hpv] at h
    by_cases hsz : is_set_zero_pattern s = true
    · rw [if_pos hsz] at h
      obtain ⟨rfl, rfl, rfl⟩ := someTriple h
      exact ⟨linked_append_one bc _ hL (by simp), stackOK_append_one bc _ _ hS⟩
    rw [if_neg hsz] at h
    by_cases hps : (is_scan_pattern s).found = true
    · rw [if_pos hps] at h
      cases hat : is_add_to_next_pattern s with
      | none =>
        rw [hat] at h
        exact Option.noConfusion h
      | some b =>
        rw [hat] at h
        cases b with
        | true =>
          obtain ⟨rfl, rfl, rfl⟩ := someTriple h
          exact ⟨linked_append_one _ _ (linked_append_one bc _ hL (scan_instr_ne_jb _)) (by simp),
            stackOK_append_one _ _ _ (stackOK_append_one bc _ _ hS)⟩
        | false =>
          by_cases hpm : (is_multiply_move_pattern s).found = true
          · rw [if_pos hpm] at h
            obtain ⟨rfl, rfl, rfl⟩ := someTriple h
            exact ⟨linked_append_one _ _ (linked_append_one bc _ hL (scan_instr_ne_jb _)) (by simp),
              stackOK_append_one _ _ _ (stackOK_append_one bc _ _ hS)⟩
          · rw [if_neg hpm] at h
            obtain ⟨rfl, rfl, rfl⟩ := someTriple h
            exact ⟨linked_append_one _ _ (linked_append_one bc _ hL (scan_instr_ne_jb _)) (by simp),
              stackOK_push_jf _ _ (stackOK_append_one bc _ _ hS)⟩
    · rw [if_neg hps] at h
      cases hat : is_add_to_next_pattern s with
      | none =>
        rw [hat] at h
        exact Option.noConfusion h
      | some b =>
        rw [hat] at h
        cases b with
        | true =>
          obtain ⟨rfl, rfl, rfl⟩ := someTriple h
          exact ⟨linked_append_one bc _ hL (by simp), stackOK_append_one bc _ _ hS⟩
        | false =>
          by_cases hpm : (is_multiply_move_pattern s).found = true
          · rw [if_pos hpm] at h
            obtain ⟨rfl, rfl, rfl⟩ := someTriple h
            exact ⟨linked_append_one bc _ hL (by simp), stackOK_append_one bc _ _ hS⟩
          · rw [if_neg hpm] at h
            obtain ⟨rfl, rfl, rfl⟩ := someTriple h
            exact ⟨linked_append_one bc _ hL (by simp), stackOK_push_jf bc _ hS⟩
  rw [if_neg h91] at h
  by_cases h93 : s.getD 0 0 = 93
  · rw [if_pos h93] at h
    cases st with
    | nil =>
      obtain ⟨rfl, rfl, rfl⟩ := someTriple h
      exact ⟨hL, hS⟩
    | cons top rest =>
      obtain ⟨rfl, rfl, rfl⟩ := someTriple h
      exact close_inv bc top rest hL hS
  · rw [if_neg h93] at h
    obtain ⟨rfl, rfl, rfl⟩ := someTriple h
    exact ⟨hL, hS⟩

/-- A successful run of the compiler loop started from invariant-satisfying
state yields a linked sequence. -/
theorem compileGo_linked :
    ∀ (fuel : Nat) (s : List Nat) (bc : List Instruction) (st : List Nat)
      (res : List Instruction), Linked bc → StackOK bc st →
      compileGo fuel s bc st = some res → Linked res := by
  intro fuel
  induction fuel with
  | zero =>
    intro s bc st res hL hS h
    cases s with
    | nil =>
      simp only [compileGo, Option.some.injEq] at h
      exact h ▸ hL
    | cons c rest => simp [compileGo] at h
  | succ fuel ih =>
    intro s bc st res hL hS h
    cases s with
    | nil =>
      simp only [compileGo, Option.some.injEq] at h
      exact h ▸ hL
    | cons c rest =>
      rw [compileGo] at h
      cases hstep : compileStep (c :: rest) bc st with
      | none => rw [hstep] at h; exact Option.noConfusion h
      | some trip =>
        obtain ⟨bc1, st1, n⟩ := trip
        rw [hstep] at h
        obtain ⟨hL1, hS1⟩ := compileStep_inv _ _ _ _ _ _ hstep hL hS
        exact ih _ _ _ _ hL1 hS1 h

/-! ### Step lemmas for the run-length and comment branches -/

theorem compileStep_gt (s : List Nat) (bc : List Instruction) (st : List Nat)
    (h : s.getD 0 0 = 62) :
    compileStep s bc st =
      some (bc ++ [⟨.MV_POS, 0, ((count_repeated_chars s 62 % 65536 : Nat) : Int)⟩], st,
        count_repeated_chars s 62 % 65536) := by
  simp only [compileStep]
  rw [if_pos h]

theorem compileStep_lt_char (s : List Nat) (bc : List Instruction) (st : List Nat)
    (h : s.getD 0 0 = 60) :
    compileStep s bc st =
      some (bc ++ [⟨.MV_POS, 0, -((count_repeated_chars s 60 % 65536 : Nat) : Int)⟩], st,
        count_repeated_chars s 60 % 65536) := by
  simp only [compileStep]
  rw [if_neg (by rw [h]; decide), if_pos h]

theorem compileStep_plus (s : List Nat) (bc : List Instruction) (st : List Nat)
    (h : s.getD 0 0 = 43) :
    compileStep s bc st =
      some (bc ++ [⟨.ADD_VAL, 0, ((count_repeated_chars s 43 % 65536 : Nat) : Int)⟩], st,
        count_repeated_chars s 43 % 65536) := by
  simp only [compileStep]
  rw [if_neg (by rw [h]; decide), if_neg (by rw [h]; decide), if_pos h]

theorem compileStep_minus (s : List Nat) (bc : List Instruction) (st : List Nat)
    (h : s.getD 0 0 = 45) :
    compileStep s bc st =
      some (bc ++ [⟨.ADD_VAL, 0, -((count_repeated_chars s 45 % 65536 : Nat) : Int)⟩], st,
        count_repeated_chars s 45 % 65536) := by
  simp only [compileStep]
  rw [if_neg (by rw [h]; decide), if_neg (by rw [h]; decide), if_neg (by rw [h]; decide),
    if_pos h]

/-- A byte is meaningful when it is one of the eight Brainfuck command bytes. -/
def meaningful (c : Nat) : Prop :=
  c = 62 ∨ c = 60 ∨ c = 43 ∨ c = 45 ∨ c = 46 ∨ c = 44 ∨ c = 91 ∨ c = 93

instance (c : Nat) : Decidable (meaningful c) := by
  unfold meaningful
  infer_instance

theorem compileStep_comment (s : List Nat) (bc : List Instruction) (st : List Nat)
    (h : ¬ meaningful (s.getD 0 0)) : compileStep s bc st = some (bc, st, 1) := by
  unfold meaningful at h
  push_neg at h
  obtain ⟨h62, h60, h43, h45, h46, h44, h91, h93⟩ := h
  simp only [compileStep]
  rw [if_neg h62, if_neg h60, if_neg h43, if_neg h45, if_neg h46, if_neg h44, if_neg h91,
    if_neg h93]

theorem compileGo_comment_skip (c : Nat) (rest : List Nat) (bc : List Instruction)
    (st : List Nat) (fuel : Nat) (hc : ¬ meaningful c) :
    compileGo (fuel + 1) (c :: rest) bc st = compileGo fuel rest bc st := by
  rw [compileGo]
  have h : ¬ meaningful ((c :: rest).getD 0 0) := by simpa using hc
  simp only [compileStep_comment _ _ _ h, List.drop_succ_cons, List.drop_zero]

/-! ### Claims about the compiler -/

/-- Claim C1: on `[>]` (resp. `[<]`) the compiler does NOT emit exactly one
scan instruction for the three-character span; the scan branch falls through
without consuming input, so the same `[` is also compiled as a generic loop:
the output is ScanRight (resp. ScanLeft) followed by a JumpForward, a
MovePos and a JumpBackward for the very same three characters, with bracket
tracking performed.  This theorem evaluates the compiler on both failing
inputs. -/
theorem c1_scanPatternFallsThrough :
    compile [91, 62, 93] =
      some [⟨.SCAN_RIGHT, 0, 0⟩, ⟨.JUMP_FWD, 3, 0⟩, ⟨.MV_POS, 0, 1⟩, ⟨.JUMP_BACK, 1, 0⟩] ∧
    compile [91, 60, 93] =
      some [⟨.SCAN_LEFT, 0, 0⟩, ⟨.JUMP_FWD, 3, 0⟩, ⟨.MV_POS, 0, -1⟩, ⟨.JUMP_BACK, 1, 0⟩] := by
  constructor
  · decide
  · decide

/-- Claim C2, counterexample: inserting the comment byte 65 between the two
plus bytes of `++` splits the run and changes the compiled sequence, so
insertion of comment bytes between meaningful bytes does not always preserve
the instruction sequence. -/
theorem c2_commentInsertion_counterexample :
    compile [43, 65, 43] ≠ compile [43, 43] := by decide

/-- Claim C2 (amended): a comment byte at the cursor is skipped, emitting no
instruction and advancing by one; hence prefixing a buffer with any string of
comment bytes leaves the compiled instruction sequence unchanged. -/
theorem c2_commentPrefixInvariance (junk ops : List Nat)
    (hj : ∀ c ∈ junk, ¬ meaningful c) : compile (junk ++ ops) = compile ops := by
  induction junk with
  | nil => simp
  | cons c junk ih =>
    have step : compile ((c :: junk) ++ ops) = compile (junk ++ ops) := by
      unfold compile
      rw [List.cons_append, List.length_cons,
        compileGo_comment_skip _ _ _ _ _ (hj c (by simp))]
    rw [step]
    exact ih fun d hd => hj d (by simp [hd])

/-- Witness for C2: prefixing `+` with the comment byte 65 compiles identically. -/
theorem c2_commentPrefixInvariance_witness :
    compile ([65] ++ [43]) = compile [43] :=
  c2_commentPrefixInvariance [65] [43] (by decide)

theorem countLeading_replicate (t n : Nat) : countLeading t (List.replicate n t) = n := by
  induction n with
  | zero => simp [countLeading]
  | succ n ih => simp [List.replicate_succ, countLeading, ih]

theorem count_repeated_chars_cons (c t : Nat) (rest : List Nat) :
    count_repeated_chars (c :: rest) t = 1 + countLeading t rest := by
  unfold count_repeated_chars
  rw [List.drop_one, List.tail_cons]

/-- On a run of 65536 `>` bytes the step computes `repeated_char_count = 0`
(the uint16_t truncation of 65536) and consumes nothing, so the loop never
finishes, whatever the fuel. -/
theorem compileGo_diverges_on_65536 :
    ∀ (fuel : Nat) (bc : List Instruction) (st : List Nat),
      compileGo fuel (62 :: List.replicate 65535 62) bc st = none := by
  have hcrc : count_repeated_chars (62 :: List.replicate 65535 62) 62 = 65536 := by
    rw [count_repeated_chars_cons, countLeading_replicate]
  intro fuel
  induction fuel with
  | zero => intro bc st; rfl
  | succ fuel ih =>
    intro bc st
    rw [compileGo]
    simp only [compileStep_gt (62 :: List.replicate 65535 62) bc st List.getD_cons_zero,
      hcrc, Nat.mod_self, Nat.cast_zero, List.drop_zero]
    exact ih _ _

/-- Claim C3: the compiler does NOT terminate on every input buffer.  On a
buffer of 65536 consecutive `>` bytes the `uint16_t repeated_char_count`
truncates the run length to 0, the cursor does not advance, and the loop
runs forever (it keeps appending `MovePos(0)` instructions); the fuel-indexed
model therefore yields `none` for every fuel, and so does `compile`. -/
theorem c3_compilerDivergesOnRun65536 :
    (∀ (fuel : Nat) (bc : List Instruction) (st : List Nat),
      compileGo fuel (List.replicate 65536 62) bc st = none) ∧
    compile (List.replicate 65536 62) = none := by
  have hrep : List.replicate 65536 62 = 62 :: List.replicate 65535 62 := by
    rw [show (65536 : Nat) = 65535 + 1 from rfl, List.replicate_succ]
  constructor
  · intro fuel bc st
    rw [hrep]
    exact compileGo_diverges_on_65536 fuel bc st
  · unfold compile
    rw [hrep]
    exact compileGo_diverges_on_65536 _ _ _

/-- Claim C4, counterexample: for the maximal run of k = 65536 `>` bytes the
compiler emits no `MovePos(+65536)` — it never returns an instruction
sequence at all. -/
theorem c4_runLength_counterexample : compile (List.replicate 65536 62) = none := by
  have hrep : List.replicate 65536 62 = 62 :: List.replicate 65535 62 := by
    rw [show (65536 : Nat) = 65535 + 1 from rfl, List.replicate_succ]
  unfold compile
  rw [hrep]
  exact compileGo_diverges_on_65536 _ _ _

/-- Claim C4 (amended): when the cursor stands at the start of a run of k
consecutive `>` bytes with k ≤ 65535, the dispatch step emits exactly one
`MovePos(+k)` instruction and advances the cursor past the whole run; the
symmetric statements hold for `<` (`MovePos(-k)`), `+` (`AddVal(+k)`) and
`-` (`AddVal(-k)`).  (Here k = `count_repeated_chars`, the length of the
run beginning at the cursor.) -/
theorem c4_runLengthFolding (s : List Nat) (bc : List Instruction) (st : List Nat)
    (fuel : Nat) :
    (s.getD 0 0 = 62 → count_repeated_chars s 62 ≤ 65535 →
      compileGo (fuel + 1) s bc st =
        compileGo fuel (s.drop (count_repeated_chars s 62))
          (bc ++ [⟨.MV_POS, 0, (count_repeated_chars s 62 : Int)⟩]) st) ∧
    (s.getD 0 0 = 60 → count_repeated_chars s 60 ≤ 65535 →
      compileGo (fuel + 1) s bc st =
        compileGo fuel (s.drop (count_repeated_chars s 60))
          (bc ++ [⟨.MV_POS, 0, -(count_repeated_chars s 60 : Int)⟩]) st) ∧
    (s.getD 0 0 = 43 → count_repeated_chars s 43 ≤ 65535 →
      compileGo (fuel + 1) s bc st =
        compileGo fuel (s.drop (count_repeated_chars s 43))
          (bc ++ [⟨.ADD_VAL, 0, (count_repeated_chars s 43 : Int)⟩]) st) ∧
    (s.getD 0 0 = 45 → count_repeated_chars s 45 ≤ 65535 →
      compileGo (fuel + 1) s bc st =
        compileGo fuel (s.drop (count_repeated_chars s 45))
          (bc ++ [⟨.ADD_VAL, 0, -(count_repeated_chars s 45 : Int)⟩]) st) := by
  refine ⟨?_, ?_, ?_, ?_⟩
  · intro h hle
    cases s with
    | nil => simp at h
    | cons c rest =>
      have hm : count_repeated_chars (c :: rest) 62 % 65536 =
          count_repeated_chars (c :: rest) 62 := Nat.mod_eq_of_lt (by omega)
      rw [compileGo]
      simp only [compileStep_gt _ _ _ h, hm]
  · intro h hle
    cases s with
    | nil => simp at h
    | cons c rest =>
      have hm : count_repeated_chars (c :: rest) 60 % 65536 =
          count_repeated_chars (c :: rest) 60 := Nat.mod_eq_of_lt (by omega)
      rw [compileGo]
      simp only [compileStep_lt_char _ _ _ h, hm]
  · intro h hle
    cases s with
    | nil => simp at h
    | cons c rest =>
      have hm : count_repeated_chars (c :: rest) 43 % 65536 =
          count_repeated_chars (c :: rest) 43 := Nat.mod_eq_of_lt (by omega)
      rw [compileGo]
      simp only [compileStep_plus _ _ _ h, hm]
  · intro h hle
    cases s with
    | nil => simp at h
    | cons c rest =>
      have hm : count_repeated_chars (c :: rest) 45 % 65536 =
          count_repeated_chars (c :: rest) 45 := Nat.mod_eq_of_lt (by omega)
      rw [compileGo]
      simp only [compileStep_minus _ _ _ h, hm]

/-- Witness for C4: at the start of the run `>>` (k = 2) the step emits one
`MovePos(+2)` and drops both characters. -/
theorem c4_runLengthFolding_witness :
    compileGo 1 [62, 62] [] [] =
      compileGo 0 (([62, 62] : List Nat).drop (count_repeated_chars [62, 62] 62))
        ([] ++ [⟨.MV_POS, 0, (count_repeated_chars [62, 62] 62 : Int)⟩]) [] :=
  (c4_runLengthFolding [62, 62] [] [] 0).1 (by decide) (by decide)

/-- Claim C6: in any successfully compiled sequence, every JumpBackward
points strictly backwards at a JumpForward whose jump target points back at
the JumpBackward's own index — matched bracket pairs are mutually linked. -/
theorem c6_bracketPairsMutuallyLinked (ops : List Nat) (bc : List Instruction)
    (hc : compile ops = some bc) (m : Nat) (hm : m < bc.length)
    (hop : (bc.getD m dInstr).op = OpCode.JUMP_BACK) :
    (bc.getD m dInstr).jump_ref < m ∧
    (bc.getD ((bc.getD m dInstr).jump_ref) dInstr).op = OpCode.JUMP_FWD ∧
    (bc.getD ((bc.getD m dInstr).jump_ref) dInstr).jump_ref = m := by
  have hnil : Linked ([] : List Instruction) := by
    intro m hm hop
    simp at hm
  have hs : StackOK ([] : List Instruction) [] := by
    refine ⟨List.Pairwise.nil, ?_⟩
    intro j hj
    simp at hj
  exact compileGo_linked _ _ _ _ _ hnil hs hc m hm hop

/-- Witness for C6: compiling `[.]` gives `[JumpForward 2, Output, JumpBackward 0]`;
at the JumpBackward (index 2) the links are mutual. -/
theorem c6_bracketPairsMutuallyLinked_witness :
    (([⟨.JUMP_FWD, 2, 0⟩, ⟨.OUTPUT, 0, 0⟩, ⟨.JUMP_BACK, 0, 0⟩] : List Instruction).getD 2
        dInstr).jump_ref < 2 ∧
    (([⟨.JUMP_FWD, 2, 0⟩, ⟨.OUTPUT, 0, 0⟩, ⟨.JUMP_BACK, 0, 0⟩] : List Instruction).getD
        ((([⟨.JUMP_FWD, 2, 0⟩, ⟨.OUTPUT, 0, 0⟩, ⟨.JUMP_BACK, 0, 0⟩] : List Instruction).getD 2
          dInstr).jump_ref) dInstr).op = OpCode.JUMP_FWD ∧
    (([⟨.JUMP_FWD, 2, 0⟩, ⟨.OUTPUT, 0, 0⟩, ⟨.JUMP_BACK, 0, 0⟩] : List Instruction).getD
        ((([⟨.JUMP_FWD, 2, 0⟩, ⟨.OUTPUT, 0, 0⟩, ⟨.JUMP_BACK, 0, 0⟩] : List Instruction).getD 2
          dInstr).jump_ref) dInstr).jump_ref = 2 :=
  c6_bracketPairsMutuallyLinked [91, 46, 93]
    [⟨.JUMP_FWD, 2, 0⟩, ⟨.OUTPUT, 0, 0⟩, ⟨.JUMP_BACK, 0, 0⟩] (by decide) 2 (by decide)
    (by decide)

/-- Claim C8: in `-c` mode the program emits one byte per compiled
instruction, equal to the opcode's numeric tag under the enum's assignment
Output=0 .. ScanLeft=11, and for the source `+++[-].` the emitted bytes are
exactly 5, 4, 0 (the program is not interpreted on this path). -/
theorem c8_dumpMode :
    run_with_c_flag [43, 43, 43, 91, 45, 93, 46] = some [5, 4, 0] ∧
    (∀ bc : List Instruction, (print_bytecode bc).length = bc.length) ∧
    (∀ (bc : List Instruction) (k : Nat),
      (print_bytecode bc).getD k 0 = opTag ((bc.getD k dInstr).op)) ∧
    opTag .OUTPUT = 0 ∧ opTag .INPUT = 1 ∧ opTag .JUMP_FWD = 2 ∧ opTag .JUMP_BACK = 3 ∧
    opTag .SET_ZERO = 4 ∧ opTag .ADD_VAL = 5 ∧ opTag .MV_POS = 6 ∧ opTag .ADD_TO_NEXT = 7 ∧
    opTag .MULTIPLY_MV = 8 ∧ opTag .SET_VAL = 9 ∧ opTag .SCAN_RIGHT = 10 ∧
    opTag .SCAN_LEFT = 11 := by
  refine ⟨by decide, ?_, ?_, rfl, rfl, rfl, rfl, rfl, rfl, rfl, rfl, rfl, rfl, rfl, rfl⟩
  · intro bc
    simp [print_bytecode]
  · intro bc k
    induction bc generalizing k with
    | nil => simp [print_bytecode, dInstr, opTag]
    | cons i l ih =>
      cases k with
      | zero => simp [print_bytecode]
      | succ k => simpa [print_bytecode] using ih k

/-- Claim C10: the add-to-next pattern check's bounds guard (`length ≤ 4` on
the cursor suffix, i.e. `pos + 4 >= ops.size()`) does not cover the read at
relative index 5 (`ops[pos + 5]`): on a buffer ending in the five bytes
`[->+<` the guard passes and the check reads one element past the end of the
buffer (`none` in the model). -/
theorem c10_addToNextGuardTooShort :
    is_add_to_next_pattern [91, 45, 62, 43, 60] = none ∧
    ¬ (([91, 45, 62, 43, 60] : List Nat).length ≤ 4) := by decide

/-! ### Claims about the tape -/

theorem moveRightBy_ok (t : TwoEndedTape) (n : Nat) (hn : n ≤ 40000)
    (h : t.position + n ≤ 39999) :
    t.moveRightBy n = .ok { t with position := t.position + n } := by
  unfold TwoEndedTape.moveRightBy
  rw [if_pos]
  rw [rightMoveBound_eq n hn]
  omega

theorem moveRightBy_err (t : TwoEndedTape) (n : Nat) (hn : n ≤ 40000)
    (h : 39999 < t.position + n) :
    t.moveRightBy n = .error "Tape overflow" := by
  unfold TwoEndedTape.moveRightBy
  rw [if_neg]
  rw [rightMoveBound_eq n hn]
  omega

theorem moveLeftBy_ok (t : TwoEndedTape) (n : Nat) (h : n ≤ t.position) :
    t.moveLeftBy n = .ok { t with position := t.position - n } := by
  unfold TwoEndedTape.moveLeftBy
  rw [if_pos h]

theorem moveLeftBy_err (t : TwoEndedTape) (n : Nat) (h : t.position < n) :
    t.moveLeftBy n = .error "Tape underflow" := by
  unfold TwoEndedTape.moveLeftBy
  rw [if_neg (by omega)]

/-- Claim C5, counterexample: moving right by n = 50000 (a legal uint16_t
argument) from logical offset 0 (position 20000) should fail with tape
overflow, since 0 + 50000 > C - 1; instead the size_t expression
`2 * TAPE_SIZE - n` wraps around and the guard passes, so the move succeeds
and leaves the head far out of bounds (position 70000). -/
theorem c5_tapeMove_counterexample :
    TwoEndedTape.initial.moveRightBy 50000 =
      .ok { TwoEndedTape.initial with position := 70000 } ∧
    ¬ (TwoEndedTape.initial.position + 50000 ≤ 39999) := by
  constructor
  · unfold TwoEndedTape.moveRightBy
    rw [if_pos (by decide)]
    rfl
  · decide

/-- Claim C5 (amended): for a tape whose head position lies in [0, 39999]
(logical offset in [-C, C-1]) and any move amount n with 1 ≤ n ≤ 40000,
moving right by n succeeds exactly when the new position stays at most
39999 (offset at most C-1), yielding the same cells with the head advanced,
and otherwise fails with "Tape overflow"; moving left by n (any n) succeeds
exactly when n ≤ position (new offset at least -C) and otherwise fails with
"Tape underflow".  (For 40000 < n ≤ 65535 the right-move guard wraps around
in size_t arithmetic and spuriously succeeds, see the counterexample.) -/
theorem c5_tapeMoveContracts (t : TwoEndedTape) (n : Nat) (hpos : t.position ≤ 39999)
    (hn : 1 ≤ n) :
    (n ≤ 40000 →
      (t.position + n ≤ 39999 →
        t.moveRightBy n = .ok { t with position := t.position + n }) ∧
      (39999 < t.position + n → t.moveRightBy n = .error "Tape overflow")) ∧
    ((n ≤ t.position → t.moveLeftBy n = .ok { t with position := t.position - n }) ∧
     (t.position < n → t.moveLeftBy n = .error "Tape underflow")) := by
  refine ⟨fun hn40 => ⟨fun h => moveRightBy_ok t n hn40 h, fun h => moveRightBy_err t n hn40 h⟩,
    fun h => moveLeftBy_ok t n h, fun h => moveLeftBy_err t n h⟩

/-- Witness for C5: from the initial tape, moving right by 5 succeeds and
moving left by 25000 underflows. -/
theorem c5_tapeMoveContracts_witness :
    TwoEndedTape.initial.moveRightBy 5 =
      .ok { TwoEndedTape.initial with position := TwoEndedTape.initial.position + 5 } ∧
    TwoEndedTape.initial.moveLeftBy 25000 = .error "Tape underflow" :=
  ⟨((c5_tapeMoveContracts TwoEndedTape.initial 5 (by decide) (by decide)).1 (by decide)).1
      (by decide),
   (c5_tapeMoveContracts TwoEndedTape.initial 25000 (by decide) (by decide)).2.2 (by decide)⟩

/-! ### Claims about the superinstructions -/

theorem set_curr_position (t : TwoEndedTape) (v : Nat) :
    (t.set_curr v).position = t.position := by
  unfold TwoEndedTape.set_curr
  split <;> rfl

theorem add_position (t : TwoEndedTape) (x : Int) : (t.add x).position = t.position := by
  unfold TwoEndedTape.add
  split <;> rfl

theorem get_curr_eq_cell (t : TwoEndedTape) : t.get_curr = t.cell t.position := rfl

theorem set_curr_right_hi (t : TwoEndedTape) (v : Nat) (hp : TAPE_SIZE ≤ t.position) :
    (t.set_curr v).right = Function.update t.right (t.position - TAPE_SIZE) (v % 256) := by
  unfold TwoEndedTape.set_curr
  rw [if_pos hp]

theorem set_curr_left_hi (t : TwoEndedTape) (v : Nat) (hp : TAPE_SIZE ≤ t.position) :
    (t.set_curr v).left = t.left := by
  unfold TwoEndedTape.set_curr
  rw [if_pos hp]

theorem set_curr_right_lo (t : TwoEndedTape) (v : Nat) (hp : ¬ TAPE_SIZE ≤ t.position) :
    (t.set_curr v).right = t.right := by
  unfold TwoEndedTape.set_curr
  rw [if_neg hp]

theorem set_curr_left_lo (t : TwoEndedTape) (v : Nat) (hp : ¬ TAPE_SIZE ≤ t.position) :
    (t.set_curr v).left =
      Function.update t.left (TAPE_SIZE - 1 - t.position) (v % 256) := by
  unfold TwoEndedTape.set_curr
  rw [if_neg hp]

theorem add_right_hi (t : TwoEndedTape) (x : Int) (hp : TAPE_SIZE ≤ t.position) :
    (t.add x).right = Function.update t.right (t.position - TAPE_SIZE)
      (ucharAdd (t.right (t.position - TAPE_SIZE)) x) := by
  unfold TwoEndedTape.add
  rw [if_pos hp]

theorem add_left_hi (t : TwoEndedTape) (x : Int) (hp : TAPE_SIZE ≤ t.position) :
    (t.add x).left = t.left := by
  unfold TwoEndedTape.add
  rw [if_pos hp]

theorem add_right_lo (t : TwoEndedTape) (x : Int) (hp : ¬ TAPE_SIZE ≤ t.position) :
    (t.add x).right = t.right := by
  unfold TwoEndedTape.add
  rw [if_neg hp]

theorem add_left_lo (t : TwoEndedTape) (x : Int) (hp : ¬ TAPE_SIZE ≤ t.position) :
    (t.add x).left = Function.update t.left (TAPE_SIZE - 1 - t.position)
      (ucharAdd (t.left (TAPE_SIZE - 1 - t.position)) x) := by
  unfold TwoEndedTape.add
  rw [if_neg hp]

theorem cell_set_curr (t : TwoEndedTape) (v q : Nat) :
    (t.set_curr v).cell q = if q = t.position then v % 256 else t.cell q := by
  unfold TwoEndedTape.cell
  by_cases hp : TAPE_SIZE ≤ t.position
  · rw [set_curr_right_hi t v hp, set_curr_left_hi t v hp]
    by_cases hq : TAPE_SIZE ≤ q
    · rw [if_pos hq, if_pos hq, Function.update_apply]
      by_cases hqp : q = t.position
      · rw [if_pos (by omega), if_pos hqp]
      · rw [if_neg (by omega), if_neg hqp]
    · rw [if_neg hq, if_neg hq, if_neg (by omega)]
  · rw [set_curr_right_lo t v hp, set_curr_left_lo t v hp]
    by_cases hq : TAPE_SIZE ≤ q
    · rw [if_pos hq, if_pos hq, if_neg (by omega)]
    · rw [if_neg hq, if_neg hq, Function.update_apply]
      by_cases hqp : q = t.position
      · rw [if_pos (by omega), if_pos hqp]
      · rw [if_neg (by omega), if_neg hqp]

theorem cell_add (t : TwoEndedTape) (x : Int) (q : Nat) :
    (t.add x).cell q =
      if q = t.position then ucharAdd (t.cell t.position) x else t.cell q := by
  have hcell : t.cell t.position = t.get_curr := (get_curr_eq_cell t).symm
  unfold TwoEndedTape.cell at hcell ⊢
  by_cases hp : TAPE_SIZE ≤ t.position
  · rw [add_right_hi t x hp, add_left_hi t x hp]
    by_cases hq : TAPE_SIZE ≤ q
    · rw [if_pos hq, if_pos hq, if_pos hp, Function.update_apply]
      by_cases hqp : q = t.position
      · rw [if_pos (by omega), if_pos hqp]
      · rw [if_neg (by omega), if_neg hqp]
    · rw [if_neg hq, if_neg hq, if_neg (by omega)]
  · rw [add_right_lo t x hp, add_left_lo t x hp]
    by_cases hq : TAPE_SIZE ≤ q
    · rw [if_pos hq, if_pos hq, if_neg (by omega)]
    · rw [if_neg hq, if_neg hq, if_neg hp, Function.update_apply]
      by_cases hqp : q = t.position
      · rw [if_pos (by omega), if_pos hqp]
      · rw [if_neg (by omega), if_neg hqp]

theorem ucharAdd_natCast (a b : Nat) : ucharAdd a (b : Int) = (a + b) % 256 := by
  unfold ucharAdd
  omega

/-- Claim C7, counterexample: on the tape state with head position 39999
(logical offset C-1), AddToNext and MultiplyMove(1) do not produce any tape
at all — the embedded move right by one overflows and both fail — so the
claimed effect (zero the current cell, add to the right neighbor) does not
hold on every tape state. -/
theorem c7_boundary_counterexample :
    execAddToNext ⟨fun _ => 0, fun _ => 0, 39999⟩ = .error "Tape overflow" ∧
    execMultiplyMove 1 ⟨fun _ => 0, fun _ => 0, 39999⟩ = .error "Tape overflow" := by
  constructor
  · rfl
  · rfl

/-- Claim C7 (amended): on every tape state SetZero acts exactly as
SetVal(0) and AddToNext acts exactly as MultiplyMove(1) (including the
identical overflow failure at offset C-1); on every state whose head offset
is at most C-2 both superinstructions leave the head unchanged, zero the
current cell, add the prior current value to the right neighbor modulo 256
and leave every other cell unchanged. -/
theorem c7_superinstructionEquivalences (t : TwoEndedTape) :
    execSetZero t = execSetVal 0 t ∧
    execAddToNext t = execMultiplyMove 1 t ∧
    (t.position + 1 ≤ 39999 →
      ∃ t', execAddToNext t = .ok t' ∧
        t'.position = t.position ∧
        t'.cell t.position = 0 ∧
        t'.cell (t.position + 1) =
          (t.cell (t.position + 1) + t.cell t.position) % 256 ∧
        ∀ q, q ≠ t.position → q ≠ t.position + 1 → t'.cell q = t.cell q) := by
  refine ⟨rfl, ?_, ?_⟩
  · simp only [execAddToNext, execMultiplyMove, mul_one]
  · intro hpos
    have h1 : (t.set_curr 0).position = t.position := set_curr_position t 0
    have hmr : (t.set_curr 0).moveRightBy 1 =
        .ok { t.set_curr 0 with position := (t.set_curr 0).position + 1 } :=
      moveRightBy_ok _ 1 (by omega) (by omega)
    set t2 : TwoEndedTape :=
      { t.set_curr 0 with position := (t.set_curr 0).position + 1 } with ht2
    set t3 : TwoEndedTape := t2.add (t.get_curr : Int) with ht3
    have h2 : t2.position = t.position + 1 := by
      rw [ht2]
      simpa using h1
    have h3 : t3.position = t.position + 1 := by
      rw [ht3, add_position, h2]
    have hml : t3.moveLeftBy 1 = .ok { t3 with position := t3.position - 1 } :=
      moveLeftBy_ok _ 1 (by omega)
    have hexec : execAddToNext t = .ok { t3 with position := t3.position - 1 } := by
      simp only [execAddToNext]
      rw [hmr]
      exact hml
    refine ⟨{ t3 with position := t3.position - 1 }, hexec, by simp [h3], ?_, ?_, ?_⟩
    · show t3.cell t.position = 0
      rw [ht3, cell_add, if_neg (by omega)]
      show (t.set_curr 0).cell t.position = 0
      rw [cell_set_curr, if_pos rfl]
    · show t3.cell (t.position + 1) =
        (t.cell (t.position + 1) + t.cell t.position) % 256
      rw [ht3, cell_add, if_pos (by omega)]
      have hc2 : t2.cell t2.position = t.cell (t.position + 1) := by
        show (t.set_curr 0).cell t2.position = t.cell (t.position + 1)
        rw [cell_set_curr, if_neg (by omega), h2]
      rw [hc2, get_curr_eq_cell, ucharAdd_natCast]
    · intro q hq1 hq2
      show t3.cell q = t.cell q
      rw [ht3, cell_add, if_neg (by omega)]
      show (t.set_curr 0).cell q = t.cell q
      rw [cell_set_curr, if_neg hq1]

/-- Witness for C7: the effect description holds on the initial tape. -/
theorem c7_superinstructionEquivalences_witness :
    execAddToNext TwoEndedTape.initial = execMultiplyMove 1 TwoEndedTape.initial ∧
    (∃ t', execAddToNext TwoEndedTape.initial = .ok t' ∧
      t'.position = TwoEndedTape.initial.position ∧
      t'.cell TwoEndedTape.initial.position = 0 ∧
      t'.cell (TwoEndedTape.initial.position + 1) =
        (TwoEndedTape.initial.cell (TwoEndedTape.initial.position + 1) +
          TwoEndedTape.initial.cell TwoEndedTape.initial.position) % 256 ∧
      ∀ q, q ≠ TwoEndedTape.initial.position → q ≠ TwoEndedTape.initial.position + 1 →
        t'.cell q = TwoEndedTape.initial.cell q) :=
  ⟨(c7_superinstructionEquivalences TwoEndedTape.initial).2.1,
   (c7_superinstructionEquivalences TwoEndedTape.initial).2.2 (by decide)⟩

/-! ### Claims about the interpreter's dispatch loop -/

theorem interpGo_fetch (bc : List Instruction) (fuel pc : Nat) (t : TwoEndedTape)
    (inp out : List Nat) (ins : Instruction) (hf : bc[pc]? = some ins) :
    interpGo bc (fuel + 1) pc t inp out =
      match execInstr ins pc t inp out with
      | .error e => .fault e
      | .ok (pc1, t', inp', out') =>
        if pc1 + 1 < bc.length then interpGo bc fuel (pc1 + 1) t' inp' out'
        else .done t' out' := by
  rw [interpGo, hf]

theorem interpGo_fetch_err (bc : List Instruction) (fuel pc : Nat) (t : TwoEndedTape)
    (inp out : List Nat) (ins : Instruction) (e : String) (hf : bc[pc]? = some ins)
    (he : execInstr ins pc t inp out = .error e) :
    interpGo bc (fuel + 1) pc t inp out = .fault e := by
  rw [interpGo_fetch bc fuel pc t inp out ins hf, he]

theorem interpGo_fetch_ok (bc : List Instruction) (fuel pc : Nat) (t : TwoEndedTape)
    (inp out : List Nat) (ins : Instruction) (pc1 : Nat) (t' : TwoEndedTape)
    (inp' out' : List Nat) (hf : bc[pc]? = some ins)
    (he : execInstr ins pc t inp out = .ok (pc1, t', inp', out')) :
    interpGo bc (fuel + 1) pc t inp out =
      if pc1 + 1 < bc.length then interpGo bc fuel (pc1 + 1) t' inp' out'
      else .done t' out' := by
  rw [interpGo_fetch bc fuel pc t inp out ins hf, he]

/-- Claim C9: for every instruction sequence whose jump targets all lie
below the sequence length, the dispatch loop never fetches out of bounds:
from any in-range program counter (and in particular from the initial 0
after the empty-sequence early return) every dispatch either recurses at an
in-range counter or returns, so `oobFetch` is unreachable. -/
theorem c9_interpreterFetchInBounds (bc : List Instruction)
    (hjump : ∀ ins ∈ bc, ins.jump_ref < bc.length) :
    (∀ (fuel pc : Nat) (t : TwoEndedTape) (inp out : List Nat),
      pc < bc.length → interpGo bc fuel pc t inp out ≠ .oobFetch) ∧
    (∀ (fuel : Nat) (inp : List Nat), interprete fuel bc inp ≠ .oobFetch) := by
  have main : ∀ (fuel pc : Nat) (t : TwoEndedTape) (inp out : List Nat),
      pc < bc.length → interpGo bc fuel pc t inp out ≠ .oobFetch := by
    intro fuel
    induction fuel with
    | zero =>
      intro pc t inp out hpc
      simp [interpGo]
    | succ fuel ih =>
      intro pc t inp out hpc
      cases hfetch : bc[pc]? with
      | none =>
        have hlen : bc.length ≤ pc := List.getElem?_eq_none_iff.mp hfetch
        omega
      | some ins =>
        cases hexec : execInstr ins pc t inp out with
        | error e =>
          rw [interpGo_fetch_err bc fuel pc t inp out ins e hfetch hexec]
          simp
        | ok r =>
          obtain ⟨pc1, t', inp', out'⟩ := r
          rw [interpGo_fetch_ok bc fuel pc t inp out ins pc1 t' inp' out' hfetch hexec]
          by_cases hlt : pc1 + 1 < bc.length
          · rw [if_pos hlt]
            exact ih _ _ _ _ hlt
          · rw [if_neg hlt]
            simp
  refine ⟨main, ?_⟩
  intro fuel inp
  unfold interprete
  by_cases hb : bc.length = 0
  · rw [if_pos hb]
    simp
  · rw [if_neg hb]
    exact main _ _ _ _ _ (by omega)

/-- Witness for C9: a one-instruction sequence with all jump targets in
range never produces an out-of-bounds fetch. -/
theorem c9_interpreterFetchInBounds_witness :
    interpGo [(⟨OpCode.OUTPUT, 0, 0⟩ : Instruction)] 3 0 TwoEndedTape.initial [] [] ≠
      .oobFetch :=
  (c9_interpreterFetchInBounds [⟨.OUTPUT, 0, 0⟩] (by decide)).1 3 0 TwoEndedTape.initial []
    [] (by decide)

end BF
